import Mathlib

/-!
Verification of the jarviss multi-agent research pipeline.

This file shallowly embeds the TypeScript sources of the repository:
  * `services/config.ts` — credential configuration and `hasKey`;
  * `llmProvider.ts` (src/unnamed/part_006) — provider selection
    (`getLLMProvider`, `getReportLLM`) and the Groq streaming parser;
  * `searchProvider.ts` (src/unnamed/part_002) — `performSearch` with the
    Tavily primary path, Gemini grounding fallback and image augmentation;
  * `services/agentSystem.ts` — the five pipeline stages (Editor,
    Researcher, Reviewer, Writer, Publisher) and the `ResearchWorkflow`
    orchestrator.

External effects (LLM generation, JSON.parse, search requests, the stream)
are modelled as oracle parameters; each stage is a total function from the
state and the oracles to the new state plus the list of emitted events,
with TypeScript try/catch blocks embedded as `Except` handling.  JavaScript
strings are modelled by Lean `String`/`List Char`; numbers inside JSON
values are modelled as integers.
-/

set_option maxRecDepth 4000

/-- Runtime JSON values as produced by JavaScript `JSON.parse`
(numbers modelled as integers). -/
inductive Json where
  | null : Json
  | bool (b : Bool) : Json
  | num (n : Int) : Json
  | str (s : String) : Json
  | arr (elems : List Json) : Json
  | obj (fields : List (String × Json)) : Json

/-- Whether a JSON value is an array. -/
def Json.isArr : Json → Bool
  | .arr _ => true
  | _ => false

mutual
/-- JavaScript string coercion `String(v)` of a runtime value
(template-literal interpolation). -/
def jsToStr : Json → String
  | .null => "null"
  | .bool b => if b then "true" else "false"
  | .num n => toString n
  | .str s => s
  | .arr l => jsArrJoin l ","
  | .obj _ => "[object Object]"

/-- JavaScript `Array.prototype.join(sep)`: elements coerced with
`String(v)` except `null`, which becomes the empty string. -/
def jsArrJoin : List Json → String → String
  | [], _ => ""
  | [x], _ => jsElemStr x
  | x :: y :: rest, sep => jsElemStr x ++ sep ++ jsArrJoin (y :: rest) sep

/-- Element coercion used by `join`: `null` joins as the empty string. -/
def jsElemStr : Json → String
  | .null => ""
  | v => jsToStr v
end

/-- `types.ts`: `Source` with an optional title and a `uri`. -/
structure Source where
  title : Option String
  uri : String
deriving DecidableEq, Repr

/-- `searchProvider.ts`: the normalized search result shape. -/
structure SearchResult where
  text : String
  sources : List Source
  images : List String
deriving DecidableEq, Repr

/-- `types.ts`: `AgentState`.  The `plan` field is declared `string[]` in
TypeScript but at runtime holds whatever `JSON.parse` returned for the
adopted array, so it is modelled as a list of JSON values. -/
structure AgentState where
  topic : String
  isDeep : Bool
  plan : List Json
  context : List String
  sources : List Source
  images : List String
  report : String

/-- `apiClient.ts`: the `ResearchResult` returned by the remote backend
(`images` is optional in `types.ts`). -/
structure ResearchResult where
  report : String
  sources : List Source
  images : Option (List String)
deriving DecidableEq, Repr

/-- `types.ts` / `agentSystem.ts`: emitted events, one constructor per
`type` tag; the `data` payload is inlined per tag and timestamps are
omitted. -/
inductive AgentEvent where
  | plan (message : String)
  | search (message : String)
  | source (s : Source)
  | image (u : String)
  | log (message : String)
  | error (message : String)
  | complete (message : String) (report : String) (sources : List Source)
      (images : Option (List String))
  | thought (agentName : String) (message : String)
  | agentAction (agentName : String) (message : String)
  | reportChunk (c : String)
  | info (message : String)
deriving DecidableEq, Repr

/-- `services/config.ts` (src/unnamed/part_003): the credential record;
each field is the environment lookup result. -/
structure Config where
  groqApiKey : Option String
  tavilyApiKey : Option String
  huggingFaceApiKey : Option String
  unsplashAccessKey : Option String
  pexelsApiKey : Option String
  googleApiKey : Option String
deriving DecidableEq, Repr

/-- `config.ts`: `hasKey = (key) => !!key && key.length > 0`. -/
def hasKey : Option String → Bool
  | none => false
  | some k => decide (0 < k.length)

/-- The three LLM backends implemented in `llmProvider.ts`. -/
inductive ProviderKind where
  | groq
  | gemini
  | huggingFace
deriving DecidableEq, Repr

/-- A selected provider: its backend kind and the credential it was
constructed with. -/
structure Provider where
  kind : ProviderKind
  apiKey : String
deriving DecidableEq, Repr

/-- `llmProvider.ts` lines 219-225: the standard factory, priority
Groq, then Google Gemini, then HuggingFace; throws when no key is set. -/
def getLLMProvider (c : Config) : Except String Provider :=
  if hasKey c.groqApiKey then .ok ⟨.groq, c.groqApiKey.getD ""⟩
  else if hasKey c.googleApiKey then .ok ⟨.gemini, c.googleApiKey.getD ""⟩
  else if hasKey c.huggingFaceApiKey then
    .ok ⟨.huggingFace, c.huggingFaceApiKey.getD ""⟩
  else .error "No available LLM Provider keys found."

/-- `llmProvider.ts` lines 228-248: the report factory, priority
Google Gemini, then Groq, then HuggingFace; throws when no key is set. -/
def getReportLLM (c : Config) : Except String Provider :=
  if hasKey c.googleApiKey then .ok ⟨.gemini, c.googleApiKey.getD ""⟩
  else if hasKey c.groqApiKey then .ok ⟨.groq, c.groqApiKey.getD ""⟩
  else if hasKey c.huggingFaceApiKey then
    .ok ⟨.huggingFace, c.huggingFaceApiKey.getD ""⟩
  else .error
    "No API keys available for report generation. Please add GOOGLE_API_KEY, GROQ_API_KEY, or HUGGINGFACE_API_KEY to .env"

/-- Spec-side selection for the fast factory, written from the spec
wording: first provider in the order Groq, Google, HuggingFace whose
credential is present; `none` when no credential is present. -/
def specSelectFast (groqP googleP hfP : Bool) : Option ProviderKind :=
  if groqP then some .groq
  else if googleP then some .gemini
  else if hfP then some .huggingFace
  else none

/-- Spec-side selection for the report factory, written from the spec
wording: first provider in the order Google, Groq, HuggingFace whose
credential is present; `none` when no credential is present. -/
def specSelectReport (googleP groqP hfP : Bool) : Option ProviderKind :=
  if googleP then some .gemini
  else if groqP then some .groq
  else if hfP then some .huggingFace
  else none

/-- Whether at least one LLM credential is configured. -/
def anyLLMKey (c : Config) : Bool :=
  hasKey c.groqApiKey || hasKey c.googleApiKey || hasKey c.huggingFaceApiKey

/-- `agentSystem.ts` line 7: `MAX_UNIQUE_SOURCES`. -/
def MAX_UNIQUE_SOURCES : Nat := 10

/-- `agentSystem.ts` line 8: `MAX_UNIQUE_IMAGES`. -/
def MAX_UNIQUE_IMAGES : Nat := 10

/-- JavaScript `Map.set` keyed by `uri`: replace the value in place when
the key exists (insertion position kept), otherwise append. -/
def mapSet (acc : List Source) (s : Source) : List Source :=
  if acc.any (fun t => t.uri = s.uri) then
    acc.map (fun t => if t.uri = s.uri then s else t)
  else acc ++ [s]

/-- `agentSystem.ts` line 55: seed the `uniqueSources` map from the
incoming state (`state.sources.forEach(s => uniqueSources.set(s.uri, s))`),
modelled as the insertion-ordered association list of the map. -/
def seedSources (l : List Source) : List Source := l.foldl mapSet []

/-- `agentSystem.ts` line 57: `new Set(state.images)` — dedup by value,
first occurrence kept, insertion order preserved. -/
def seedImages (l : List String) : List String :=
  l.foldl (fun acc i => if i ∈ acc then acc else acc ++ [i]) []

/-- `agentSystem.ts` lines 68-74: the per-query source merge loop — break
once the map holds `MAX_UNIQUE_SOURCES` entries, skip an already present
`uri`, otherwise insert and emit a `source` event. -/
def addSources : List Source → List Source → List Source × List AgentEvent
  | acc, [] => (acc, [])
  | acc, s :: rest =>
    if MAX_UNIQUE_SOURCES ≤ acc.length then (acc, [])
    else if acc.any (fun t => t.uri = s.uri) then addSources acc rest
    else
      let (l, es) := addSources (acc ++ [s]) rest
      (l, .source s :: es)

/-- `agentSystem.ts` lines 76-82: the per-query image merge loop — break
once the set holds `MAX_UNIQUE_IMAGES` entries, skip a present value,
otherwise insert and emit an `image` event. -/
def addImages : List String → List String → List String × List AgentEvent
  | acc, [] => (acc, [])
  | acc, img :: rest =>
    if MAX_UNIQUE_IMAGES ≤ acc.length then (acc, [])
    else if img ∈ acc then addImages acc rest
    else
      let (l, es) := addImages (acc ++ [img]) rest
      (l, .image img :: es)

/-- Outcome of one `performSearch` call as observed by the Researcher:
`none` models a rejected promise (the `catch` branch), `some r` a
resolved result.  The oracle is indexed by the position of the call. -/
abbrev SearchOracle := Nat → Option SearchResult

/-- `agentSystem.ts` lines 61-87: the Researcher loop over the plan.
Each query emits a `search` event; a rejected search is caught and
emits an `error` event; a resolved one appends its labeled context
block and merges sources and images under the caps. -/
def researchLoop (oracle : SearchOracle) :
    List Json → Nat → List String → List Source → List String →
    List String × List Source × List String × List AgentEvent
  | [], _, ctx, srcs, imgs => (ctx, srcs, imgs, [])
  | q :: rest, i, ctx, srcs, imgs =>
    let evq : AgentEvent :=
      .search ("Gathering intelligence: \"" ++ jsToStr q ++ "\"")
    match oracle i with
    | none =>
      let (c, s, im, es) := researchLoop oracle rest (i + 1) ctx srcs imgs
      (c, s, im, evq :: .error ("Search failed for " ++ jsToStr q) :: es)
    | some r =>
      let ctx2 := ctx ++ ["### Data for \"" ++ jsToStr q ++ "\":\n" ++ r.text]
      let (srcs2, es1) := addSources srcs r.sources
      let (imgs2, es2) := addImages imgs r.images
      let (c, s, im, es) := researchLoop oracle rest (i + 1) ctx2 srcs2 imgs2
      (c, s, im, evq :: (es1 ++ es2 ++ es))

/-- `agentSystem.ts` lines 51-95: `ResearcherAgent.execute`.  Total: every
failure of `performSearch` is caught inside the loop. -/
def researcherExecute (state : AgentState) (oracle : SearchOracle) :
    AgentState × List AgentEvent :=
  let (ctx, srcs, imgs, evs) :=
    researchLoop oracle state.plan 0 state.context
      (seedSources state.sources) (seedImages state.images)
  ({ state with context := ctx, sources := srcs, images := imgs },
    .agentAction "Researcher" "Deploying autonomous scrapers..." :: evs)

/-- Number of calls among positions `i, i+1, ..., i+n-1` on which the
search oracle resolves (the successful queries). -/
def succCount (oracle : SearchOracle) : Nat → Nat → Nat
  | _, 0 => 0
  | i, n + 1 =>
    (if (oracle i).isSome then 1 else 0) + succCount oracle (i + 1) n

/-- JavaScript whitespace as trimmed by `String.prototype.trim`
(the four common characters are modelled). -/
def isJsWs (c : Char) : Bool :=
  c = ' ' || c = '\t' || c = '\n' || c = '\r'

/-- `String.prototype.trim`: drop whitespace from both ends. -/
def trimL (l : List Char) : List Char :=
  ((l.dropWhile isJsWs).reverse.dropWhile isJsWs).reverse

/-- Whether `pat` is a prefix of the second list. -/
def hasPrefixL : List Char → List Char → Bool
  | [], _ => true
  | _ :: _, [] => false
  | p :: ps, c :: cs => p = c && hasPrefixL ps cs

/-- JavaScript `s.replace(/pat/g, "")`: delete every non-overlapping
occurrence of `pat`, scanning left to right. -/
def removeAll (pat : List Char) : List Char → List Char
  | [] => []
  | c :: rest =>
    if pat ≠ [] ∧ hasPrefixL pat (c :: rest) then
      removeAll pat (rest.drop (pat.length - 1))
    else c :: removeAll pat rest
termination_by l => l.length
decreasing_by
  · simp only [List.length_drop, List.length_cons]
    omega
  · simp only [List.length_cons]
    omega

/-- `agentSystem.ts` line 36: strip markdown code fences from the LLM
response — global replace of three-backticks-json, then of
three-backticks, then trim. -/
def stripFences (text : String) : String :=
  String.mk (trimL (removeAll "```".toList
    (removeAll "```json".toList text.toList)))

/-- Outcome oracle for JavaScript `JSON.parse`: `none` models a thrown
`SyntaxError`, `some v` the parsed runtime value. -/
abbrev JsonParse := String → Option Json

/-- `agentSystem.ts` lines 17-46: `EditorAgent.execute`.  `getLLMProvider`
is called before the `try` block, so a missing credential escapes the
stage as a thrown error.  Inside the `try`, a generation failure, a
`JSON.parse` failure, and a parsed non-array value (whose `.join` raises a
`TypeError` while building the `plan` event) all reach the `catch`, which
emits an `error` event and degrades the plan to `[state.topic]`. -/
def editorExecute (cfg : Config) (state : AgentState)
    (genOutcome : Except String String) (jsonParse : JsonParse) :
    Except String (AgentState × List AgentEvent) :=
  match getLLMProvider cfg with
  | .error m => .error m
  | .ok _ =>
    let evA : AgentEvent := .agentAction "Editor"
      "Analyzing request and outlining research strategy..."
    let degraded : AgentState × List AgentEvent :=
      ({ state with plan := [.str state.topic] },
        [evA, .error "Planning failed, reverting to basic search."])
    match genOutcome with
    | .error _ => .ok degraded
    | .ok text =>
      match jsonParse (stripFences text) with
      | some (.arr qs) =>
        .ok ({ state with plan := qs },
          [evA, .plan ("Research Outline: " ++ jsArrJoin qs ", ")])
      | _ => .ok degraded

/-- `agentSystem.ts` lines 99-111: `ReviewerAgent.execute` — read-only,
emits an advisory `thought` and returns the state unchanged. -/
def reviewerExecute (state : AgentState) : AgentState × List AgentEvent :=
  (state,
    [.agentAction "Reviewer" "Validating gathered intelligence...",
      if state.context.length = 0 then
        .thought "Reviewer" "Insufficient data. Flagging for revision."
      else
        .thought "Reviewer" ("Validation passed. "
          ++ toString state.sources.length ++ " sources authenticated.")])

/-- `agentSystem.ts` lines 114-141: `WriterAgent.execute`.  `getReportLLM`
is called before the `try`, so a missing credential escapes the stage.
The stream oracle is the list of fragments yielded before the stream
either ends normally (`streamErr = none`) or throws with a message; each
fragment was emitted as a `report_chunk` event and accumulated, and the
`catch` REPLACES the accumulated report with the failure text. -/
def writerExecute (cfg : Config) (state : AgentState)
    (chunks : List String) (streamErr : Option String) :
    Except String (AgentState × List AgentEvent) :=
  match getReportLLM cfg with
  | .error m => .error m
  | .ok _ =>
    let evs := AgentEvent.agentAction "Writer" "Drafting final report..."
      :: chunks.map .reportChunk
    match streamErr with
    | none => .ok ({ state with report := String.join chunks }, evs)
    | some m =>
      .ok ({ state with report := "Drafting failed. " ++ m }, evs)

/-- `agentSystem.ts` lines 144-150: `PublisherAgent.execute` — emits the
terminal `complete` event bundling report, sources, images. -/
def publisherExecute (state : AgentState) : AgentState × List AgentEvent :=
  (state,
    [.agentAction "Publisher" "Finalizing formatting and publishing...",
      .complete "Research Published" state.report state.sources
        (some state.images)])

/-- `agentSystem.ts` lines 199-207: the fresh state built at the start of
each run. -/
def initialState (topic : String) (isDeep : Bool) : AgentState :=
  { topic := topic, isDeep := isDeep, plan := [], context := [],
    sources := [], images := [], report := "" }

/-- `agentSystem.ts` lines 198-230: `runFrontendAgents` — the five stages
in sequence inside one `try`; a stage throw is caught and emitted as an
`error` event (and no further stage runs).  Returns the emitted events and
the final state (`none` when the catch was reached). -/
def runFrontendAgents (cfg : Config) (topic : String) (isDeep : Bool)
    (genOutcome : Except String String) (jsonParse : JsonParse)
    (oracle : SearchOracle) (chunks : List String)
    (streamErr : Option String) : List AgentEvent × Option AgentState :=
  let ev0 : List AgentEvent := [.log "Chief Editor: Initializing Workflow"]
  match editorExecute cfg (initialState topic isDeep) genOutcome jsonParse with
  | .error m => (ev0 ++ [.error m], none)
  | .ok (st1, e1) =>
    let (st2, e2) := researcherExecute st1 oracle
    let (st3, e3) := reviewerExecute st2
    match writerExecute cfg st3 chunks streamErr with
    | .error m => (ev0 ++ e1 ++ e2 ++ e3 ++ [.error m], none)
    | .ok (st4, e4) =>
      let (st5, e5) := publisherExecute st4
      (ev0 ++ e1 ++ e2 ++ e3 ++ e4 ++ e5, some st5)

/-- `agentSystem.ts` lines 165-196: `ResearchWorkflow.start`.
`backendHealthy` is the result of the `api.health()` probe (the probe
itself never throws); `backendOutcome` the result of
`api.startResearch`.  On backend failure or in browser mode the local
pipeline runs; the returned list is every event emitted during the run. -/
def start (cfg : Config) (topic : String) (isDeep : Bool)
    (backendHealthy : Bool) (backendOutcome : Except String ResearchResult)
    (genOutcome : Except String String) (jsonParse : JsonParse)
    (oracle : SearchOracle) (chunks : List String)
    (streamErr : Option String) : List AgentEvent :=
  if backendHealthy then
    .info "Connected to Neural Backend (Python/LangGraph)" ::
      match backendOutcome with
      | .ok r =>
        [.complete "Research Completed by Backend" r.report r.sources
          r.images]
      | .error m =>
        .error ("Backend Error: " ++ m)
          :: .info "Falling back to local agents..."
          :: (runFrontendAgents cfg topic isDeep genOutcome jsonParse
              oracle chunks streamErr).1
  else
    .info "Running in Browser Mode (TypeScript Agents)" ::
      (runFrontendAgents cfg topic isDeep genOutcome jsonParse oracle
        chunks streamErr).1

/-- `searchProvider.ts` (src/unnamed/part_002) lines 109-125:
`pexelsImages` — keyless returns the empty list; the oracle is the
outcome of the guarded request body, where a thrown fetch error, a
non-2xx response, and a malformed payload are all `.error` and are
swallowed into the empty list. -/
def pexelsImages (cfg : Config)
    (outcome : Except String (List String)) : List String :=
  if hasKey cfg.pexelsApiKey then
    match outcome with
    | .ok l => l
    | .error _ => []
  else []

/-- `searchProvider.ts` (src/unnamed/part_002) lines 128-139:
`unsplashImages` — same contract as `pexelsImages`. -/
def unsplashImages (cfg : Config)
    (outcome : Except String (List String)) : List String :=
  if hasKey cfg.unsplashAccessKey then
    match outcome with
    | .ok l => l
    | .error _ => []
  else []

/-- `searchProvider.ts` (src/unnamed/part_002) lines 141-184:
`performSearch`.  The Tavily primary path is attempted only when its key
is set; on a missing key or a thrown request it falls back to Gemini
grounding (the `geminiOutcome` oracle includes the missing-Google-key
throw); if the fallback also throws, an error placeholder result is
returned with no augmentation.  Otherwise, when fewer than 3 images were
found, the image augmentation chain runs and the combined image list is
capped at 10. -/
def performSearch (cfg : Config)
    (tavilyOutcome geminiOutcome : Except String SearchResult)
    (pexelsOutcome unsplashOutcome : Except String (List String)) :
    SearchResult :=
  let primary : Option SearchResult :=
    if hasKey cfg.tavilyApiKey then
      match tavilyOutcome with
      | .ok r => some r
      | .error _ => none
    else none
  let afterFallback : Option SearchResult :=
    match primary with
    | some r => some r
    | none =>
      match geminiOutcome with
      | .ok r => some r
      | .error _ => none
  match afterFallback with
  | none =>
    { text := "Search failed. Check API Quotas.", sources := [], images := [] }
  | some r =>
    if r.images.length < 3 then
      let extra1 :=
        if hasKey cfg.pexelsApiKey then pexelsImages cfg pexelsOutcome
        else []
      let extra :=
        if extra1.length = 0 && hasKey cfg.unsplashAccessKey then
          unsplashImages cfg unsplashOutcome
        else extra1
      { r with images := (r.images ++ extra).take 10 }
    else r

/-- Spec-side image augmentation chain, written from the spec wording:
the primary image provider first, then the secondary provider when the
primary is keyless or yields nothing; a provider failure contributes an
empty list. -/
def specAugmentChain (cfg : Config)
    (pexelsOutcome unsplashOutcome : Except String (List String)) :
    List String :=
  let fromPrimary :=
    if hasKey cfg.pexelsApiKey then
      match pexelsOutcome with
      | .ok l => l
      | .error _ => []
    else []
  if fromPrimary = [] then
    if hasKey cfg.unsplashAccessKey then
      match unsplashOutcome with
      | .ok l => l
      | .error _ => []
    else []
  else fromPrimary

/-- JavaScript first-occurrence `s.replace(pat, "")` for a plain string
pattern: delete the leftmost occurrence of `pat`, if any. -/
def removeFirst (pat : List Char) : List Char → List Char
  | [] => []
  | c :: rest =>
    if pat ≠ [] ∧ hasPrefixL pat (c :: rest) then rest.drop (pat.length - 1)
    else c :: removeFirst pat rest

/-- JavaScript truthiness of a runtime JSON value. -/
def jsTruthy : Json → Bool
  | .null => false
  | .bool b => b
  | .num n => n ≠ 0
  | .str s => s.length ≠ 0
  | .arr _ => true
  | .obj _ => true

/-- JavaScript property access `j[key]` on a parsed JSON object:
`none` models `undefined` (and the `TypeError` thrown by a further access
on it, which the surrounding `try` of the stream parser swallows). -/
def jsGet (j : Json) (key : String) : Option Json :=
  match j with
  | .obj fields => (fields.find? (fun kv => kv.1 = key)).map (fun kv => kv.2)
  | _ => none

/-- JavaScript `a[0]` on a parsed JSON array. -/
def jsHead : Json → Option Json
  | .arr (x :: _) => some x
  | _ => none

/-- `llmProvider.ts` line 113: `data.choices[0]?.delta?.content`. -/
def jsGetContent (j : Json) : Option Json := do
  let c ← jsGet j "choices"
  let h ← jsHead c
  let d ← jsGet h "delta"
  jsGet d "content"

/-- What one complete line makes the Groq stream parser do. -/
inductive LineAction where
  | halt
  | yieldChunk (c : String)
  | skip
deriving DecidableEq, Repr

/-- `llmProvider.ts` lines 106-119: processing of one complete line.
A trimmed line not starting with the event marker is skipped; the
`[DONE]` terminator halts the generator; an unparsable payload is skipped
(the `catch` ignores it); a parsed payload yields its delta content when
that content is truthy (yielded values are coerced to text). -/
def lineAction (parse : JsonParse) (line : List Char) : LineAction :=
  let trimmed := trimL line
  if hasPrefixL "data: ".toList trimmed then
    let dataStr := trimL (removeFirst "data: ".toList trimmed)
    if dataStr = "[DONE]".toList then .halt
    else
      match parse (String.mk dataStr) with
      | none => .skip
      | some j =>
        match jsGetContent j with
        | some v => if jsTruthy v then .yieldChunk (jsToStr v) else .skip
        | none => .skip
  else .skip

/-- JavaScript `s.split("\n")`. -/
def splitNl : List Char → List (List Char)
  | [] => [[]]
  | c :: rest =>
    if c = '\n' then [] :: splitNl rest
    else
      match splitNl rest with
      | [] => [[c]]
      | h :: t => (c :: h) :: t

/-- Process the complete lines of one read: accumulate the yields and
report whether the `[DONE]` terminator was hit (at which point the
generator returns and the remaining lines are ignored). -/
def processLines (parse : JsonParse) : List (List Char) → List String × Bool
  | [] => ([], false)
  | line :: rest =>
    match lineAction parse line with
    | .halt => ([], true)
    | .yieldChunk c =>
      let (ys, d) := processLines parse rest
      (c :: ys, d)
    | .skip => processLines parse rest

/-- `llmProvider.ts` lines 100-104 plus the line loop: one reader chunk —
append to the carried buffer, split on newlines, keep the trailing
(possibly incomplete) segment as the new buffer, process the complete
lines.  Returns (new buffer, yields, halted). -/
def processChunk (parse : JsonParse) (buffer chunk : List Char) :
    List Char × List String × Bool :=
  let ls := splitNl (buffer ++ chunk)
  (ls.getLastD [], processLines parse ls.dropLast)

/-- `llmProvider.ts` lines 94-120: the full read loop of
`GroqProvider.generateStream` over a given sequence of reader chunks;
at end of stream the residual buffer is discarded (`done` breaks). -/
def runStream (parse : JsonParse) (buffer : List Char) :
    List (List Char) → List String
  | [] => []
  | chunk :: rest =>
    let (nb, ys, d) := processChunk parse buffer chunk
    if d then ys else ys ++ runStream parse nb rest

/-- Character-level reference model of the same parser: state is
(current partial line, yields so far, halted). -/
def feed (parse : JsonParse) :
    List Char × List String × Bool → Char → List Char × List String × Bool
  | (buf, ys, true), _ => (buf, ys, true)
  | (buf, ys, false), ch =>
    if ch = '\n' then
      match lineAction parse buf with
      | .halt => ([], ys, true)
      | .yieldChunk c => ([], ys ++ [c], false)
      | .skip => ([], ys, false)
    else (buf ++ [ch], ys, false)

/-- Cooperative-scheduling actions of one `start` invocation: event
emissions interleaved with the resolution of the promise `start`
returns. -/
inductive StartAction where
  | emitEv (e : AgentEvent)
  | resolveStart
deriving DecidableEq, Repr

/-- Terminal events in the sense of the spec: `complete` and `error`. -/
def isTerminal : AgentEvent → Bool
  | .complete _ _ _ _ => true
  | .error _ => true
  | _ => false

/-- Number of events `runFrontendAgents` emits synchronously before its
first suspension point when invoked without `await` from `start`
(`agentSystem.ts` lines 190 and 194): the initial `log` always
(line 210); when `getLLMProvider` succeeds the Editor also emits its
`agent_action` (line 19) before the first `await` (the provider request,
line 29); when `getLLMProvider` throws, `editor.execute` returns an
already-rejected promise whose rejection is delivered in a microtask
after `start` has resolved, so only the `log` precedes resolution. -/
def syncPrefixLen (cfg : Config) : Nat :=
  match getLLMProvider cfg with
  | .ok _ => 2
  | .error _ => 1

/-- Cooperative-scheduling trace of `ResearchWorkflow.start`
(`agentSystem.ts` lines 165-196).  In the delegated path both awaits are
awaited, so every emission precedes the resolution.  In browser mode and
in the backend-failure fallback, `runFrontendAgents` is invoked WITHOUT
`await`, so only its synchronous prefix precedes the resolution and the
rest of the pipeline runs after `start` has resolved. -/
def startActions (cfg : Config) (topic : String) (isDeep : Bool)
    (backendHealthy : Bool) (backendOutcome : Except String ResearchResult)
    (genOutcome : Except String String) (jsonParse : JsonParse)
    (oracle : SearchOracle) (chunks : List String)
    (streamErr : Option String) : List StartAction :=
  if backendHealthy then
    match backendOutcome with
    | .ok r =>
      [.emitEv (.info "Connected to Neural Backend (Python/LangGraph)"),
        .emitEv (.complete "Research Completed by Backend" r.report
          r.sources r.images),
        .resolveStart]
    | .error m =>
      let evs := (runFrontendAgents cfg topic isDeep genOutcome jsonParse
        oracle chunks streamErr).1
      let k := syncPrefixLen cfg
      .emitEv (.info "Connected to Neural Backend (Python/LangGraph)")
        :: .emitEv (.error ("Backend Error: " ++ m))
        :: .emitEv (.info "Falling back to local agents...")
        :: ((evs.take k).map .emitEv ++ [.resolveStart]
            ++ (evs.drop k).map .emitEv)
  else
    let evs := (runFrontendAgents cfg topic isDeep genOutcome jsonParse
      oracle chunks streamErr).1
    let k := syncPrefixLen cfg
    .emitEv (.info "Running in Browser Mode (TypeScript Agents)")
      :: ((evs.take k).map .emitEv ++ [.resolveStart]
          ++ (evs.drop k).map .emitEv)

/-- Whether an action is the emission of a terminal (`complete` or
`error`) event. -/
def isTerminalEmit : StartAction → Bool
  | .emitEv e => isTerminal e
  | .resolveStart => false

/-- The C6 property at a trace: every resolution of `start` is preceded
by the emission of a terminal (`complete` or `error`) event. -/
def resolveOnlyAfterTerminal (tr : List StartAction) : Prop :=
  ∀ i : Fin tr.length, tr.get i = .resolveStart →
    ∃ j : Fin tr.length, j.1 < i.1 ∧ isTerminalEmit (tr.get j) = true

/-- The opposite timing: the trace resolves strictly before any terminal
event — no terminal is emitted before the resolution point, and a
terminal is emitted after it. -/
def resolvesBeforeTerminal (tr : List StartAction) : Prop :=
  ∃ pre post, tr = pre ++ .resolveStart :: post
    ∧ (∀ a ∈ pre, isTerminalEmit a = false)
    ∧ ∃ a ∈ post, isTerminalEmit a = true

/-- A terminal event is emitted somewhere before the resolution point. -/
def terminalBeforeResolve (tr : List StartAction) : Prop :=
  ∃ pre post, tr = pre ++ .resolveStart :: post
    ∧ ∃ a ∈ pre, isTerminalEmit a = true

/-- Sample state used to instantiate the Researcher invariants. -/
def c1State : AgentState :=
  { topic := "AI", isDeep := false,
    plan := [Json.str "q1", Json.str "q2", Json.str "q3"],
    context := ["prior"],
    sources := [⟨some "Seed", "https://seed.example"⟩],
    images := ["https://img.example/seed.png"],
    report := "" }

/-- Sample search oracle: the first query resolves with duplicated sources
and images, the second rejects, the third resolves. -/
def c1Oracle : SearchOracle := fun i =>
  if i = 0 then
    some ⟨"t0",
      [⟨some "A", "https://a.example"⟩, ⟨some "A2", "https://a.example"⟩,
        ⟨none, "https://seed.example"⟩],
      ["https://img.example/1.png", "https://img.example/1.png"]⟩
  else if i = 1 then none
  else some ⟨"t2", [⟨some "B", "https://b.example"⟩],
    ["https://img.example/seed.png", "https://img.example/2.png"]⟩

/-- Configuration with only a Groq key. -/
def groqOnlyCfg : Config := ⟨some "gk", none, none, none, none, none⟩

/-- Configuration with only a Google key. -/
def googleOnlyCfg : Config := ⟨none, none, none, none, none, some "AIza"⟩

/-- Configuration with no credential at all. -/
def emptyCfg : Config := ⟨none, none, none, none, none, none⟩

/-- A parse oracle that always fails (every input raises SyntaxError). -/
def failParse : JsonParse := fun _ => none

/-- A parse oracle that always returns a non-array JSON value. -/
def objParse : JsonParse := fun _ => some (.obj [("a", .num 1)])

/-- A parse oracle that always returns the empty array. -/
def emptyArrParse : JsonParse := fun _ => some (.arr [])

/-- A parse oracle returning a two-query plan array. -/
def twoQueryParse : JsonParse :=
  fun _ => some (.arr [.str "qa", .str "qb"])

/-- A search oracle on which every second query fails. -/
def alternatingOracle : SearchOracle := fun i =>
  if i % 2 = 0 then
    some ⟨"data", [⟨some "S", "https://s.example"⟩], []⟩
  else none

/-- A search oracle that always rejects. -/
def failingOracle : SearchOracle := fun _ => none

/-- C7: `getLLMProvider` picks the first non-empty credential in the order
Groq, Google Gemini, HuggingFace, and `getReportLLM` in the order
Google Gemini, Groq, HuggingFace; each throws its descriptive no-provider
error exactly when none of the three credentials is non-empty; the chosen
backend depends only on which credentials are present (it equals a
function of the three presence booleans). -/
theorem provider_selection_priority (c : Config) :
    ((getLLMProvider c).toOption.map Provider.kind
        = specSelectFast (hasKey c.groqApiKey) (hasKey c.googleApiKey)
            (hasKey c.huggingFaceApiKey))
    ∧ ((getReportLLM c).toOption.map Provider.kind
        = specSelectReport (hasKey c.googleApiKey) (hasKey c.groqApiKey)
            (hasKey c.huggingFaceApiKey))
    ∧ (getLLMProvider c = .error "No available LLM Provider keys found."
        ↔ anyLLMKey c = false)
    ∧ ((∃ m, getLLMProvider c = .error m) ↔ anyLLMKey c = false)
    ∧ ((∃ m, getReportLLM c = .error m) ↔ anyLLMKey c = false) := by
  cases hg : hasKey c.groqApiKey <;> cases hgo : hasKey c.googleApiKey <;>
    cases hhf : hasKey c.huggingFaceApiKey <;>
      simp [getLLMProvider, getReportLLM, specSelectFast, specSelectReport,
        anyLLMKey, hg, hgo, hhf, Except.toOption]

/-- The source merge loop keeps uri-uniqueness, never exceeds the cap, and
only appends: the accumulator is a prefix of the result. -/
theorem addSources_invariant (l : List Source) :
    ∀ acc : List Source, acc.Pairwise (fun a b => a.uri ≠ b.uri) →
      acc.length ≤ MAX_UNIQUE_SOURCES →
      (addSources acc l).1.Pairwise (fun a b => a.uri ≠ b.uri)
        ∧ (addSources acc l).1.length ≤ MAX_UNIQUE_SOURCES
        ∧ ∃ t, (addSources acc l).1 = acc ++ t := by
  induction l with
  | nil =>
    intro acc h1 h2
    exact ⟨h1, h2, [], by simp [addSources]⟩
  | cons s rest ih =>
    intro acc h1 h2
    by_cases hcap : MAX_UNIQUE_SOURCES ≤ acc.length
    · exact ⟨by simpa [addSources, hcap] using h1,
        by simpa [addSources, hcap] using h2,
        [], by simp [addSources, hcap]⟩
    · by_cases hdup : acc.any (fun t => t.uri = s.uri)
      · have := ih acc h1 h2
        simpa [addSources, hcap, hdup] using this
      · have hnotin : ∀ t ∈ acc, t.uri ≠ s.uri := by
          intro t ht
          simp only [List.any_eq_true, decide_eq_true_eq, not_exists] at hdup
          push_neg at hdup
          exact hdup t ht
        have h1' : (acc ++ [s]).Pairwise (fun a b => a.uri ≠ b.uri) := by
          rw [List.pairwise_append]
          exact ⟨h1, List.pairwise_singleton _ _, by
            intro a ha b hb
            simp only [List.mem_singleton] at hb
            subst hb
            exact hnotin a ha⟩
        have h2' : (acc ++ [s]).length ≤ MAX_UNIQUE_SOURCES := by
          simp only [List.length_append, List.length_singleton]
          omega
        obtain ⟨p1, p2, t, ht⟩ := ih (acc ++ [s]) h1' h2'
        have key : (addSources acc (s :: rest)).1
            = (addSources (acc ++ [s]) rest).1 := by
          have hnex : ¬ ∃ x ∈ acc, x.uri = s.uri := by
            rintro ⟨x, hx, he⟩; exact hnotin x hx he
          rcases hE : addSources (acc ++ [s]) rest with ⟨l', es'⟩
          simp [addSources, if_neg hcap, hE, hnex]
        refine ⟨?_, ?_, [s] ++ t, ?_⟩
        · rw [key]; exact p1
        · rw [key]; exact p2
        · rw [key, ht]; simp

/-- The image merge loop keeps value-uniqueness, never exceeds the cap,
and only appends: the accumulator is a prefix of the result. -/
theorem addImages_invariant (l : List String) :
    ∀ acc : List String, acc.Nodup →
      acc.length ≤ MAX_UNIQUE_IMAGES →
      (addImages acc l).1.Nodup
        ∧ (addImages acc l).1.length ≤ MAX_UNIQUE_IMAGES
        ∧ ∃ t, (addImages acc l).1 = acc ++ t := by
  induction l with
  | nil =>
    intro acc h1 h2
    exact ⟨h1, h2, [], by simp [addImages]⟩
  | cons img rest ih =>
    intro acc h1 h2
    by_cases hcap : MAX_UNIQUE_IMAGES ≤ acc.length
    · exact ⟨by simpa [addImages, hcap] using h1,
        by simpa [addImages, hcap] using h2,
        [], by simp [addImages, hcap]⟩
    · by_cases hdup : img ∈ acc
      · have := ih acc h1 h2
        simpa [addImages, hcap, hdup] using this
      · have h1' : (acc ++ [img]).Nodup := by
          rw [List.nodup_append]
          exact ⟨h1, List.nodup_singleton _, by
            intro a ha hb
            simp only [List.mem_singleton] at hb
            subst hb
            exact hdup ha⟩
        have h2' : (acc ++ [img]).length ≤ MAX_UNIQUE_IMAGES := by
          simp only [List.length_append, List.length_singleton]
          omega
        obtain ⟨p1, p2, t, ht⟩ := ih (acc ++ [img]) h1' h2'
        have key : (addImages acc (img :: rest)).1
            = (addImages (acc ++ [img]) rest).1 := by
          rcases hE : addImages (acc ++ [img]) rest with ⟨l', es'⟩
          simp [addImages, if_neg hcap, hE, hdup]
        refine ⟨?_, ?_, [img] ++ t, ?_⟩
        · rw [key]; exact p1
        · rw [key]; exact p2
        · rw [key, ht]; simp

/-- Seeding the `uniqueSources` map from a duplicate-free source list is
the identity on that list. -/
theorem seedSources_eq_self (l : List Source)
    (h : l.Pairwise (fun a b => a.uri ≠ b.uri)) : seedSources l = l := by
  suffices H : ∀ (l acc : List Source),
      l.Pairwise (fun a b => a.uri ≠ b.uri) →
      (∀ a ∈ acc, ∀ b ∈ l, a.uri ≠ b.uri) →
      l.foldl mapSet acc = acc ++ l by
    simpa using H l [] h (by simp)
  intro l
  induction l with
  | nil => intro acc _ _; simp
  | cons s rest ih =>
    intro acc hpw hdisj
    have hstep : mapSet acc s = acc ++ [s] := by
      have : ¬ acc.any (fun t => t.uri = s.uri) = true := by
        simp only [List.any_eq_true, decide_eq_true_eq, not_exists]
        intro x
        rintro ⟨hx, he⟩
        exact hdisj x hx s (by simp) he
      simp [mapSet, this]
    have hpw' := (List.pairwise_cons.mp hpw).2
    have hhd := (List.pairwise_cons.mp hpw).1
    have hdisj' : ∀ a ∈ acc ++ [s], ∀ b ∈ rest, a.uri ≠ b.uri := by
      intro a ha b hb
      rcases List.mem_append.mp ha with h | h
      · exact hdisj a h b (by simp [hb])
      · simp only [List.mem_singleton] at h
        subst h
        exact hhd b hb
    calc (s :: rest).foldl mapSet acc = rest.foldl mapSet (mapSet acc s) := by
          simp
      _ = rest.foldl mapSet (acc ++ [s]) := by rw [hstep]
      _ = (acc ++ [s]) ++ rest := ih (acc ++ [s]) hpw' hdisj'
      _ = acc ++ s :: rest := by simp

/-- Seeding the image `Set` from a duplicate-free image list is the
identity on that list. -/
theorem seedImages_eq_self (l : List String) (h : l.Nodup) :
    seedImages l = l := by
  suffices H : ∀ (l acc : List String), l.Nodup →
      (∀ a ∈ acc, a ∉ l) →
      l.foldl (fun acc i => if i ∈ acc then acc else acc ++ [i]) acc
        = acc ++ l by
    simpa using H l [] h (by simp)
  intro l
  induction l with
  | nil => intro acc _ _; simp
  | cons s rest ih =>
    intro acc hnd hdisj
    have hsn : s ∉ acc := fun hc => hdisj s hc (by simp)
    have hnd' := (List.nodup_cons.mp hnd).2
    have hhd := (List.nodup_cons.mp hnd).1
    have hdisj' : ∀ a ∈ acc ++ [s], a ∉ rest := by
      intro a ha
      rcases List.mem_append.mp ha with h | h
      · exact fun hc => hdisj a h (by simp [hc])
      · simp only [List.mem_singleton] at h
        subst h
        exact hhd
    calc (s :: rest).foldl (fun acc i => if i ∈ acc then acc else acc ++ [i]) acc
        = rest.foldl (fun acc i => if i ∈ acc then acc else acc ++ [i])
            (if s ∈ acc then acc else acc ++ [s]) := by simp
      _ = rest.foldl (fun acc i => if i ∈ acc then acc else acc ++ [i])
            (acc ++ [s]) := by rw [if_neg hsn]
      _ = (acc ++ [s]) ++ rest := ih (acc ++ [s]) hnd' hdisj'
      _ = acc ++ s :: rest := by simp

/-- Researcher loop invariant: uri-uniqueness, value-uniqueness, both caps,
prefix preservation for sources and images, and one context block per
successful query. -/
theorem researchLoop_invariant (oracle : SearchOracle) (qs : List Json) :
    ∀ (i : Nat) (ctx : List String) (srcs : List Source) (imgs : List String),
      srcs.Pairwise (fun a b => a.uri ≠ b.uri) →
      srcs.length ≤ MAX_UNIQUE_SOURCES →
      imgs.Nodup → imgs.length ≤ MAX_UNIQUE_IMAGES →
      (researchLoop oracle qs i ctx srcs imgs).2.1.Pairwise
          (fun a b => a.uri ≠ b.uri)
        ∧ (researchLoop oracle qs i ctx srcs imgs).2.1.length
            ≤ MAX_UNIQUE_SOURCES
        ∧ (∃ t, (researchLoop oracle qs i ctx srcs imgs).2.1 = srcs ++ t)
        ∧ (researchLoop oracle qs i ctx srcs imgs).2.2.1.Nodup
        ∧ (researchLoop oracle qs i ctx srcs imgs).2.2.1.length
            ≤ MAX_UNIQUE_IMAGES
        ∧ (∃ t, (researchLoop oracle qs i ctx srcs imgs).2.2.1 = imgs ++ t)
        ∧ (researchLoop oracle qs i ctx srcs imgs).1.length
            = ctx.length + succCount oracle i qs.length := by
  induction qs with
  | nil =>
    intro i ctx srcs imgs h1 h2 h3 h4
    exact ⟨by simpa [researchLoop] using h1, by simpa [researchLoop] using h2,
      ⟨[], by simp [researchLoop]⟩, by simpa [researchLoop] using h3,
      by simpa [researchLoop] using h4, ⟨[], by simp [researchLoop]⟩,
      by simp [researchLoop, succCount]⟩
  | cons q rest ih =>
    intro i ctx srcs imgs h1 h2 h3 h4
    cases ho : oracle i with
    | none =>
      rcases hR : researchLoop oracle rest (i + 1) ctx srcs imgs
        with ⟨c, s, im, es⟩
      have := ih (i + 1) ctx srcs imgs h1 h2 h3 h4
      rw [hR] at this
      obtain ⟨p1, p2, p3, p4, p5, p6, p7⟩ := this
      refine ⟨?_, ?_, ?_, ?_, ?_, ?_, ?_⟩ <;>
        simp [researchLoop, ho, hR, succCount, p1, p2, p3, p4, p5, p6, p7]
    | some r =>
      rcases hS : addSources srcs r.sources with ⟨srcs2, es1⟩
      rcases hI : addImages imgs r.images with ⟨imgs2, es2⟩
      obtain ⟨q1, q2, t1, ht1⟩ := addSources_invariant r.sources srcs h1 h2
      obtain ⟨w1, w2, u1, hu1⟩ := addImages_invariant r.images imgs h3 h4
      rw [hS] at q1 q2 ht1
      rw [hI] at w1 w2 hu1
      have := ih (i + 1)
        (ctx ++ ["### Data for \"" ++ jsToStr q ++ "\":\n" ++ r.text])
        srcs2 imgs2 q1 q2 w1 w2
      rcases hR : researchLoop oracle rest (i + 1)
          (ctx ++ ["### Data for \"" ++ jsToStr q ++ "\":\n" ++ r.text])
          srcs2 imgs2 with ⟨c, s, im, es⟩
      rw [hR] at this
      obtain ⟨p1, p2, ⟨t2, ht2⟩, p4, p5, ⟨u2, hu2⟩, p7⟩ := this
      refine ⟨?_, ?_, ⟨t1 ++ t2, ?_⟩, ?_, ?_, ⟨u1 ++ u2, ?_⟩, ?_⟩ <;>
        simp_all [researchLoop, ho, hS, hI, hR, succCount]
      omega

/-- C1: for every input state whose sources are duplicate-free by `uri`
and whose images are duplicate-free, both within the caps, and every
pattern of `performSearch` outcomes, the state the Researcher returns has
a source list with no two entries of equal `uri` and length at most
`MAX_UNIQUE_SOURCES = 10`, and an image list with no two equal entries and
length at most `MAX_UNIQUE_IMAGES = 10`; insertion order is preserved: the
incoming lists are prefixes of the outgoing ones and discovered entries
are appended in discovery order. -/
theorem researcher_unique_caps (state : AgentState) (oracle : SearchOracle)
    (hs : state.sources.Pairwise (fun a b => a.uri ≠ b.uri))
    (hsl : state.sources.length ≤ MAX_UNIQUE_SOURCES)
    (hi : state.images.Nodup)
    (hil : state.images.length ≤ MAX_UNIQUE_IMAGES) :
    (researcherExecute state oracle).1.sources.Pairwise
        (fun a b => a.uri ≠ b.uri)
    ∧ (researcherExecute state oracle).1.sources.length ≤ MAX_UNIQUE_SOURCES
    ∧ (∃ t, (researcherExecute state oracle).1.sources = state.sources ++ t)
    ∧ (researcherExecute state oracle).1.images.Nodup
    ∧ (researcherExecute state oracle).1.images.length ≤ MAX_UNIQUE_IMAGES
    ∧ ∃ t, (researcherExecute state oracle).1.images = state.images ++ t := by
  have hseedS : seedSources state.sources = state.sources :=
    seedSources_eq_self _ hs
  have hseedI : seedImages state.images = state.images :=
    seedImages_eq_self _ hi
  have inv := researchLoop_invariant oracle state.plan 0 state.context
    (seedSources state.sources) (seedImages state.images)
    (by rw [hseedS]; exact hs) (by rw [hseedS]; exact hsl)
    (by rw [hseedI]; exact hi) (by rw [hseedI]; exact hil)
  rcases hR : researchLoop oracle state.plan 0 state.context
      (seedSources state.sources) (seedImages state.images)
    with ⟨c, s, im, es⟩
  rw [hR] at inv
  obtain ⟨p1, p2, ⟨t1, ht1⟩, p4, p5, ⟨u1, hu1⟩, _⟩ := inv
  rw [hseedS] at ht1
  rw [hseedI] at hu1
  exact ⟨by simpa [researcherExecute, hR] using p1,
    by simpa [researcherExecute, hR] using p2,
    ⟨t1, by simpa [researcherExecute, hR] using ht1⟩,
    by simpa [researcherExecute, hR] using p4,
    by simpa [researcherExecute, hR] using p5,
    ⟨u1, by simpa [researcherExecute, hR] using hu1⟩⟩

/-- C1 witness: the invariant instantiated at a concrete state carrying a
seeded source and image and an oracle that returns duplicates, a failure,
and a repeated image. -/
theorem researcher_unique_caps_witness :
    (researcherExecute c1State c1Oracle).1.sources.Pairwise
        (fun a b => a.uri ≠ b.uri)
    ∧ (researcherExecute c1State c1Oracle).1.sources.length
        ≤ MAX_UNIQUE_SOURCES
    ∧ (∃ t, (researcherExecute c1State c1Oracle).1.sources
        = c1State.sources ++ t)
    ∧ (researcherExecute c1State c1Oracle).1.images.Nodup
    ∧ (researcherExecute c1State c1Oracle).1.images.length
        ≤ MAX_UNIQUE_IMAGES
    ∧ ∃ t, (researcherExecute c1State c1Oracle).1.images
        = c1State.images ++ t :=
  researcher_unique_caps c1State c1Oracle (by decide) (by decide)
    (by decide) (by decide)

/-- C3: when the Editor has a provider and the plan-generation response
text, after fence stripping, either fails `JSON.parse` or parses to a
non-array value, the stage returns normally (the `catch` absorbs the
failure) with the plan exactly `[topic]`, the topic string verbatim. -/
theorem editor_plan_fallback (cfg : Config) (state : AgentState)
    (text : String) (jsonParse : JsonParse) (p : Provider)
    (hp : getLLMProvider cfg = .ok p)
    (hparse : jsonParse (stripFences text) = none
      ∨ ∃ v, jsonParse (stripFences text) = some v ∧ v.isArr = false) :
    editorExecute cfg state (.ok text) jsonParse
      = .ok ({ state with plan := [.str state.topic] },
          [.agentAction "Editor"
              "Analyzing request and outlining research strategy...",
            .error "Planning failed, reverting to basic search."]) := by
  rcases hparse with h | ⟨v, hv, hn⟩
  · simp [editorExecute, hp, h]
  · cases v <;> simp_all [editorExecute, hp, Json.isArr]

/-- C3 witness: Groq-only configuration, a response that is not JSON
(`failParse`) — the plan degrades to the topic. -/
theorem editor_plan_fallback_witness :
    editorExecute groqOnlyCfg (initialState "Quantum" false)
        (.ok "not json") failParse
      = .ok ({ initialState "Quantum" false with plan := [.str "Quantum"] },
          [.agentAction "Editor"
              "Analyzing request and outlining research strategy...",
            .error "Planning failed, reverting to basic search."]) :=
  editor_plan_fallback groqOnlyCfg (initialState "Quantum" false)
    "not json" failParse ⟨.groq, "gk"⟩ (by rfl) (Or.inl rfl)

/-- With at least one LLM credential, both provider factories succeed. -/
theorem anyLLMKey_getProviders (cfg : Config) (h : anyLLMKey cfg = true) :
    (∃ p, getLLMProvider cfg = .ok p) ∧ ∃ p, getReportLLM cfg = .ok p := by
  cases hg : hasKey cfg.groqApiKey <;> cases hgo : hasKey cfg.googleApiKey <;>
    cases hhf : hasKey cfg.huggingFaceApiKey <;>
      simp_all [getLLMProvider, getReportLLM, anyLLMKey]

/-- When a provider is available the Editor stage returns normally, its
first event is the Editor `agent_action`, and it changes only the plan. -/
theorem editorExecute_ok (cfg : Config) (state : AgentState)
    (gen : Except String String) (parse : JsonParse) (p : Provider)
    (hp : getLLMProvider cfg = .ok p) :
    ∃ qs x, editorExecute cfg state gen parse
      = .ok ({ state with plan := qs },
          [.agentAction "Editor"
            "Analyzing request and outlining research strategy...", x]) := by
  cases gen with
  | error e =>
    exact ⟨[.str state.topic],
      .error "Planning failed, reverting to basic search.",
      by simp [editorExecute, hp]⟩
  | ok text =>
    cases hj : parse (stripFences text) with
    | none =>
      exact ⟨[.str state.topic],
        .error "Planning failed, reverting to basic search.",
        by simp [editorExecute, hp, hj]⟩
    | some v =>
      cases v with
      | arr l =>
        exact ⟨l, .plan ("Research Outline: " ++ jsArrJoin l ", "),
          by simp [editorExecute, hp, hj]⟩
      | null =>
        exact ⟨[.str state.topic],
          .error "Planning failed, reverting to basic search.",
          by simp [editorExecute, hp, hj]⟩
      | bool b =>
        exact ⟨[.str state.topic],
          .error "Planning failed, reverting to basic search.",
          by simp [editorExecute, hp, hj]⟩
      | num n =>
        exact ⟨[.str state.topic],
          .error "Planning failed, reverting to basic search.",
          by simp [editorExecute, hp, hj]⟩
      | str s =>
        exact ⟨[.str state.topic],
          .error "Planning failed, reverting to basic search.",
          by simp [editorExecute, hp, hj]⟩
      | obj f =>
        exact ⟨[.str state.topic],
          .error "Planning failed, reverting to basic search.",
          by simp [editorExecute, hp, hj]⟩

/-- When a report provider is available the Writer stage returns normally:
on a clean stream the report is the concatenation of the fragments, on a
thrown stream it is the failure text; each fragment became a
`report_chunk` event. -/
theorem writerExecute_ok (cfg : Config) (state : AgentState)
    (chunks : List String) (serr : Option String) (p : Provider)
    (hp : getReportLLM cfg = .ok p) :
    writerExecute cfg state chunks serr
      = .ok ({ state with report :=
            match serr with
            | none => String.join chunks
            | some m => "Drafting failed. " ++ m },
          AgentEvent.agentAction "Writer" "Drafting final report..."
            :: chunks.map .reportChunk) := by
  cases serr <;> simp [writerExecute, hp]

/-- C2 counterexample: with a Google key, a stream that yields the
fragments "Partial " and "report" and then throws with message
"network down" makes the Write stage return the report
"Drafting failed. network down" — not the concatenation
"Partial report" of the fragments accumulated before the failure. -/
theorem writer_truncation_counterexample :
    writerExecute googleOnlyCfg (initialState "T" false)
        ["Partial ", "report"] (some "network down")
      = .ok ({ initialState "T" false with
            report := "Drafting failed. network down" },
          [.agentAction "Writer" "Drafting final report...",
            .reportChunk "Partial ", .reportChunk "report"])
    ∧ ("Drafting failed. network down" : String)
        ≠ String.join ["Partial ", "report"] := by
  exact ⟨rfl, by decide⟩

/-- C2 amended: if the report stream throws with message `m` after
yielding `chunks`, the Write stage catches the failure and returns a
state whose report is the string "Drafting failed. " followed by `m`
(the accumulated fragments are dropped from the state, though each was
emitted as a `report_chunk` event while it streamed), and the run still
proceeds to the Publish stage, which emits the terminal `complete` event
carrying that degraded report. -/
theorem writer_failure_degrades_and_publishes (cfg : Config)
    (topic : String) (isDeep : Bool) (gen : Except String String)
    (parse : JsonParse) (oracle : SearchOracle) (chunks : List String)
    (m : String) (hk : anyLLMKey cfg = true) :
    (∃ st, (runFrontendAgents cfg topic isDeep gen parse oracle chunks
          (some m)).2 = some st
        ∧ st.report = "Drafting failed. " ++ m)
    ∧ (∀ c ∈ chunks, .reportChunk c
        ∈ (runFrontendAgents cfg topic isDeep gen parse oracle chunks
            (some m)).1)
    ∧ ∃ srcs imgs, .complete "Research Published"
          ("Drafting failed. " ++ m) srcs imgs
        ∈ (runFrontendAgents cfg topic isDeep gen parse oracle chunks
            (some m)).1 := by
  obtain ⟨⟨p, hp⟩, ⟨q, hq⟩⟩ := anyLLMKey_getProviders cfg hk
  obtain ⟨qs, x, hE⟩ :=
    editorExecute_ok cfg (initialState topic isDeep) gen parse p hp
  rcases hR : researcherExecute
      { initialState topic isDeep with plan := qs } oracle with ⟨st2, e2⟩
  have hW := writerExecute_ok cfg st2 chunks (some m) q hq
  refine And.intro ?_ (And.intro ?_ ?_)
  · refine ⟨{ st2 with report := "Drafting failed. " ++ m }, ?_, rfl⟩
    simp [runFrontendAgents, hE, hR, reviewerExecute, hW, publisherExecute]
  · intro c hc
    simp [runFrontendAgents, hE, hR, reviewerExecute, hW, publisherExecute]
    tauto
  · refine ⟨st2.sources, some st2.images, ?_⟩
    simp [runFrontendAgents, hE, hR, reviewerExecute, hW, publisherExecute]

/-- C2 witness: the amended statement at a Google-only configuration with
a stream failing after one fragment. -/
theorem writer_failure_degrades_and_publishes_witness :
    (∃ st, (runFrontendAgents googleOnlyCfg "T" false (.ok "[]")
          emptyArrParse failingOracle ["Hello "] (some "boom")).2 = some st
        ∧ st.report = "Drafting failed. " ++ "boom")
    ∧ (∀ c ∈ ["Hello "], AgentEvent.reportChunk c
        ∈ (runFrontendAgents googleOnlyCfg "T" false (.ok "[]")
            emptyArrParse failingOracle ["Hello "] (some "boom")).1)
    ∧ ∃ srcs imgs, AgentEvent.complete "Research Published"
          ("Drafting failed. " ++ "boom") srcs imgs
        ∈ (runFrontendAgents googleOnlyCfg "T" false (.ok "[]")
            emptyArrParse failingOracle ["Hello "] (some "boom")).1 :=
  writer_failure_degrades_and_publishes googleOnlyCfg "T" false (.ok "[]")
    emptyArrParse failingOracle ["Hello "] "boom" (by decide)

/-- The Researcher loop appends exactly one context block per successful
query, for every accumulator (no uniqueness hypotheses needed). -/
theorem researchLoop_context_length (oracle : SearchOracle)
    (qs : List Json) :
    ∀ (i : Nat) (ctx : List String) (srcs : List Source)
      (imgs : List String),
      (researchLoop oracle qs i ctx srcs imgs).1.length
        = ctx.length + succCount oracle i qs.length := by
  induction qs with
  | nil => intro i ctx srcs imgs; simp [researchLoop, succCount]
  | cons q rest ih =>
    intro i ctx srcs imgs
    cases ho : oracle i with
    | none =>
      rcases hR : researchLoop oracle rest (i + 1) ctx srcs imgs
        with ⟨c, s, im, es⟩
      have := ih (i + 1) ctx srcs imgs
      rw [hR] at this
      simp [researchLoop, ho, hR, succCount, this]
    | some r =>
      rcases hS : addSources srcs r.sources with ⟨srcs2, es1⟩
      rcases hI : addImages imgs r.images with ⟨imgs2, es2⟩
      rcases hR : researchLoop oracle rest (i + 1)
          (ctx ++ ["### Data for \"" ++ jsToStr q ++ "\":\n" ++ r.text])
          srcs2 imgs2 with ⟨c, s, im, es⟩
      have := ih (i + 1)
        (ctx ++ ["### Data for \"" ++ jsToStr q ++ "\":\n" ++ r.text])
        srcs2 imgs2
      rw [hR] at this
      simp [researchLoop, ho, hS, hI, hR, succCount, this]
      omega

/-- `ResearcherAgent.execute` is total and adds one context block per
successful query. -/
theorem researcherExecute_context_length (st : AgentState)
    (oracle : SearchOracle) :
    (researcherExecute st oracle).1.context.length
      = st.context.length + succCount oracle 0 st.plan.length := by
  rcases hR : researchLoop oracle st.plan 0 st.context
      (seedSources st.sources) (seedImages st.images) with ⟨c, s, im, es⟩
  have := researchLoop_context_length oracle st.plan 0 st.context
    (seedSources st.sources) (seedImages st.images)
  rw [hR] at this
  simpa [researcherExecute, hR] using this

/-- The Researcher never changes the plan. -/
theorem researcherExecute_plan (st : AgentState) (oracle : SearchOracle) :
    (researcherExecute st oracle).1.plan = st.plan := by
  rcases hR : researchLoop oracle st.plan 0 st.context
      (seedSources st.sources) (seedImages st.images) with ⟨c, s, im, es⟩
  simp [researcherExecute, hR]

/-- C4: with a provider available, for every plan and every pattern of
per-query search outcomes the Research stage returns normally (it is a
total function of the oracle) with context length equal to the number of
successful queries added to the incoming context (the run starts from the
empty context, so the final state satisfies the count exactly); the run
does not abort: Review, Write and Publish all execute, and the terminal
`complete` event is emitted. -/
theorem research_partial_failures_run_completes (cfg : Config)
    (topic : String) (isDeep : Bool) (gen : Except String String)
    (parse : JsonParse) (oracle : SearchOracle) (chunks : List String)
    (serr : Option String) (hk : anyLLMKey cfg = true) :
    (∀ st : AgentState, (researcherExecute st oracle).1.context.length
        = st.context.length + succCount oracle 0 st.plan.length)
    ∧ (∃ st, (runFrontendAgents cfg topic isDeep gen parse oracle chunks
          serr).2 = some st
        ∧ st.context.length = succCount oracle 0 st.plan.length)
    ∧ AgentEvent.agentAction "Reviewer" "Validating gathered intelligence..."
        ∈ (runFrontendAgents cfg topic isDeep gen parse oracle chunks serr).1
    ∧ AgentEvent.agentAction "Writer" "Drafting final report..."
        ∈ (runFrontendAgents cfg topic isDeep gen parse oracle chunks serr).1
    ∧ ∃ msg r srcs imgs, AgentEvent.complete msg r srcs imgs
        ∈ (runFrontendAgents cfg topic isDeep gen parse oracle chunks
            serr).1 := by
  obtain ⟨⟨p, hp⟩, ⟨q, hq⟩⟩ := anyLLMKey_getProviders cfg hk
  obtain ⟨qs, x, hE⟩ :=
    editorExecute_ok cfg (initialState topic isDeep) gen parse p hp
  rcases hR : researcherExecute
      { initialState topic isDeep with plan := qs } oracle with ⟨st2, e2⟩
  have hW := writerExecute_ok cfg st2 chunks serr q hq
  have hctx : st2.context.length = succCount oracle 0 qs.length := by
    have h1 := researcherExecute_context_length
      { initialState topic isDeep with plan := qs } oracle
    rw [hR] at h1
    simpa [initialState] using h1
  have hplan : st2.plan = qs := by
    have h1 := researcherExecute_plan
      { initialState topic isDeep with plan := qs } oracle
    rw [hR] at h1
    simpa using h1
  refine And.intro (fun st => researcherExecute_context_length st oracle)
    (And.intro ?_ (And.intro ?_ (And.intro ?_ ?_)))
  · refine ⟨{ st2 with report :=
        match serr with
        | none => String.join chunks
        | some m => "Drafting failed. " ++ m }, ?_, ?_⟩
    · cases serr <;>
        simp [runFrontendAgents, hE, hR, reviewerExecute, hW, publisherExecute]
    · simpa [hplan] using hctx
  · simp [runFrontendAgents, hE, hR, reviewerExecute, hW, publisherExecute]
  · simp [runFrontendAgents, hE, hR, reviewerExecute, hW, publisherExecute]
  · refine ⟨"Research Published",
      (match serr with
        | none => String.join chunks
        | some m => "Drafting failed. " ++ m),
      st2.sources, some st2.images, ?_⟩
    cases serr <;>
      simp [runFrontendAgents, hE, hR, reviewerExecute, hW, publisherExecute]

/-- C4 witness: Groq-only configuration, a two-query plan on which the
first search succeeds and the second fails. -/
theorem research_partial_failures_run_completes_witness :
    (∀ st : AgentState,
        (researcherExecute st alternatingOracle).1.context.length
        = st.context.length + succCount alternatingOracle 0 st.plan.length)
    ∧ (∃ st, (runFrontendAgents groqOnlyCfg "T" false (.ok "x")
          twoQueryParse alternatingOracle ["r"] none).2 = some st
        ∧ st.context.length = succCount alternatingOracle 0 st.plan.length)
    ∧ AgentEvent.agentAction "Reviewer" "Validating gathered intelligence..."
        ∈ (runFrontendAgents groqOnlyCfg "T" false (.ok "x")
            twoQueryParse alternatingOracle ["r"] none).1
    ∧ AgentEvent.agentAction "Writer" "Drafting final report..."
        ∈ (runFrontendAgents groqOnlyCfg "T" false (.ok "x")
            twoQueryParse alternatingOracle ["r"] none).1
    ∧ ∃ msg r srcs imgs, AgentEvent.complete msg r srcs imgs
        ∈ (runFrontendAgents groqOnlyCfg "T" false (.ok "x")
            twoQueryParse alternatingOracle ["r"] none).1 :=
  research_partial_failures_run_completes groqOnlyCfg "T" false (.ok "x")
    twoQueryParse alternatingOracle ["r"] none (by decide)

/-- C5: with no LLM credential configured and the remote delegate
unavailable, `start` emits a terminal `error` event (the no-provider
throw of `getLLMProvider`, caught by the orchestrator) and no `complete`
event is emitted at any point of the run. -/
theorem no_credentials_terminal_error (cfg : Config) (topic : String)
    (isDeep : Bool) (backendOutcome : Except String ResearchResult)
    (gen : Except String String) (parse : JsonParse)
    (oracle : SearchOracle) (chunks : List String) (serr : Option String)
    (hk : anyLLMKey cfg = false) :
    (∃ m, AgentEvent.error m
        ∈ start cfg topic isDeep false backendOutcome gen parse oracle
            chunks serr)
    ∧ ∀ msg r srcs imgs, AgentEvent.complete msg r srcs imgs
        ∉ start cfg topic isDeep false backendOutcome gen parse oracle
            chunks serr := by
  have h3 : hasKey cfg.groqApiKey = false
      ∧ hasKey cfg.googleApiKey = false
      ∧ hasKey cfg.huggingFaceApiKey = false := by
    simp only [anyLLMKey, Bool.or_eq_false_iff] at hk
    exact ⟨hk.1.1, hk.1.2, hk.2⟩
  have hp : getLLMProvider cfg
      = .error "No available LLM Provider keys found." := by
    simp [getLLMProvider, h3.1, h3.2.1, h3.2.2]
  constructor
  · exact ⟨"No available LLM Provider keys found.",
      by simp [start, runFrontendAgents, editorExecute, hp]⟩
  · intro msg r srcs imgs
    simp [start, runFrontendAgents, editorExecute, hp]

/-- C5 witness: the empty configuration with arbitrary concrete oracles. -/
theorem no_credentials_terminal_error_witness :
    (∃ m, AgentEvent.error m
        ∈ start emptyCfg "T" false false (.error "down") (.error "gen")
            failParse failingOracle [] none)
    ∧ ∀ msg r srcs imgs, AgentEvent.complete msg r srcs imgs
        ∉ start emptyCfg "T" false false (.error "down") (.error "gen")
            failParse failingOracle [] none :=
  no_credentials_terminal_error emptyCfg "T" false (.error "down")
    (.error "gen") failParse failingOracle [] none (by decide)

/-- C10: a response that parses to a JSON array is adopted as the plan
verbatim — including the empty array.  With plan `[]` the Research stage
performs zero searches (no `search` event is emitted anywhere in the run)
and leaves the context empty, yet Review, Write and Publish still execute
and the `complete` event is emitted with the successfully written
report. -/
theorem empty_plan_adopted_still_completes (cfg : Config) (topic : String)
    (isDeep : Bool) (text : String) (parse : JsonParse)
    (oracle : SearchOracle) (chunks : List String)
    (hk : anyLLMKey cfg = true)
    (hparse : parse (stripFences text) = some (.arr [])) :
    (∀ (parse2 : JsonParse) (text2 : String) (l : List Json)
        (st : AgentState), parse2 (stripFences text2) = some (.arr l) →
        ∃ e1, editorExecute cfg st (.ok text2) parse2
          = .ok ({ st with plan := l }, e1))
    ∧ (∃ st, (runFrontendAgents cfg topic isDeep (.ok text) parse oracle
          chunks none).2 = some st
        ∧ st.plan = [] ∧ st.context = []
        ∧ st.report = String.join chunks)
    ∧ (∀ m, AgentEvent.search m
        ∉ (runFrontendAgents cfg topic isDeep (.ok text) parse oracle
            chunks none).1)
    ∧ ∃ srcs imgs, AgentEvent.complete "Research Published"
          (String.join chunks) srcs imgs
        ∈ (runFrontendAgents cfg topic isDeep (.ok text) parse oracle
            chunks none).1 := by
  obtain ⟨⟨p, hp⟩, ⟨q, hq⟩⟩ := anyLLMKey_getProviders cfg hk
  have hctx0 : (initialState topic isDeep).context = [] := rfl
  have hsrc0 : (initialState topic isDeep).sources = [] := rfl
  have himg0 : (initialState topic isDeep).images = [] := rfl
  have hE : editorExecute cfg (initialState topic isDeep) (.ok text) parse
      = .ok (initialState topic isDeep,
          [.agentAction "Editor"
              "Analyzing request and outlining research strategy...",
            .plan ("Research Outline: " ++ jsArrJoin [] ", ")]) := by
    simp [editorExecute, hp, hparse, initialState]
  have hR : researcherExecute (initialState topic isDeep) oracle
      = (initialState topic isDeep,
          [.agentAction "Researcher"
            "Deploying autonomous scrapers..."]) := by
    simp [researcherExecute, researchLoop, seedSources, seedImages,
      initialState]
  have hW := writerExecute_ok cfg (initialState topic isDeep) chunks
    none q hq
  refine And.intro ?_ (And.intro ?_ (And.intro ?_ ?_))
  · intro parse2 text2 l st h
    exact ⟨[.agentAction "Editor"
        "Analyzing request and outlining research strategy...",
      .plan ("Research Outline: " ++ jsArrJoin l ", ")],
      by simp [editorExecute, hp, h]⟩
  · refine ⟨({ initialState topic isDeep with
      report := String.join chunks }), ?_, rfl, rfl, rfl⟩
    simp [runFrontendAgents, hE, hR, reviewerExecute, hW, publisherExecute,
      hctx0]
  · intro m
    simp [runFrontendAgents, hE, hR, reviewerExecute, hW, publisherExecute,
      hctx0]
  · refine ⟨[], some [], ?_⟩
    simp [runFrontendAgents, hE, hR, reviewerExecute, hW, publisherExecute,
      hctx0, hsrc0, himg0]

/-- C10 witness: Groq-only configuration, a parse oracle returning the
empty array, and a clean two-fragment report stream. -/
theorem empty_plan_adopted_still_completes_witness :
    (∀ (parse2 : JsonParse) (text2 : String) (l : List Json)
        (st : AgentState), parse2 (stripFences text2) = some (.arr l) →
        ∃ e1, editorExecute groqOnlyCfg st (.ok text2) parse2
          = .ok ({ st with plan := l }, e1))
    ∧ (∃ st, (runFrontendAgents groqOnlyCfg "T" false (.ok "[]")
          emptyArrParse failingOracle ["R1", "R2"] none).2 = some st
        ∧ st.plan = [] ∧ st.context = []
        ∧ st.report = String.join ["R1", "R2"])
    ∧ (∀ m, AgentEvent.search m
        ∉ (runFrontendAgents groqOnlyCfg "T" false (.ok "[]")
            emptyArrParse failingOracle ["R1", "R2"] none).1)
    ∧ ∃ srcs imgs, AgentEvent.complete "Research Published"
          (String.join ["R1", "R2"]) srcs imgs
        ∈ (runFrontendAgents groqOnlyCfg "T" false (.ok "[]")
            emptyArrParse failingOracle ["R1", "R2"] none).1 :=
  empty_plan_adopted_still_completes groqOnlyCfg "T" false "[]"
    emptyArrParse failingOracle ["R1", "R2"] (by decide) rfl

/-- C8: whenever the search path taken (Tavily primary, or the Gemini
grounding fallback when the primary is keyless or threw) succeeds with a
result carrying fewer than 3 images, `performSearch` appends the output
of the image-augmentation chain keyed by the same query — the primary
image provider first, then the secondary when the primary is keyless or
yields nothing, with every augmentation failure contributing an empty
list instead of an error — and caps the combined image list at 10. -/
theorem performSearch_augmentation (cfg : Config)
    (tavilyOutcome geminiOutcome : Except String SearchResult)
    (pexelsOutcome unsplashOutcome : Except String (List String))
    (r : SearchResult)
    (hpath : (hasKey cfg.tavilyApiKey = true ∧ tavilyOutcome = .ok r)
      ∨ ((hasKey cfg.tavilyApiKey = false
            ∨ ∃ e, tavilyOutcome = .error e)
          ∧ geminiOutcome = .ok r))
    (hfew : r.images.length < 3) :
    performSearch cfg tavilyOutcome geminiOutcome pexelsOutcome
        unsplashOutcome
      = { r with images := (r.images
          ++ specAugmentChain cfg pexelsOutcome unsplashOutcome).take 10 } := by
  have haug : ∀ s : SearchResult, s.images.length < 3 →
      (if s.images.length < 3 then
        let extra1 :=
          if hasKey cfg.pexelsApiKey then pexelsImages cfg pexelsOutcome
          else []
        let extra :=
          if extra1.length = 0 && hasKey cfg.unsplashAccessKey then
            unsplashImages cfg unsplashOutcome
          else extra1
        { s with images := (s.images ++ extra).take 10 }
      else s)
      = { s with images := (s.images
          ++ specAugmentChain cfg pexelsOutcome unsplashOutcome).take 10 } := by
    intro s hs
    rw [if_pos hs]
    rcases hpx : hasKey cfg.pexelsApiKey with _ | _ <;>
      rcases hun : hasKey cfg.unsplashAccessKey with _ | _ <;>
        rcases pexelsOutcome with pe | pl <;>
          rcases unsplashOutcome with ue | ul <;>
            simp [pexelsImages, unsplashImages, specAugmentChain, hpx, hun,
              List.length_eq_zero] <;>
              cases pl <;> simp
  rcases hpath with ⟨ht, hok⟩ | ⟨hfb, hok⟩
  · simpa [performSearch, ht, hok] using haug r hfew
  · rcases hfb with ht | ⟨e, he⟩
    · simpa [performSearch, ht, hok] using haug r hfew
    · simpa [performSearch, he, hok] using haug r hfew

/-- C8 witness: Tavily configured and succeeding with one image, the
primary image provider failing, the secondary yielding two images. -/
theorem performSearch_augmentation_witness :
    performSearch
        ⟨none, some "tav", none, some "uk", some "pk", none⟩
        (.ok ⟨"t", [], ["https://img.example/1.png"]⟩) (.error "unused")
        (.error "quota") (.ok ["https://u.example/a", "https://u.example/b"])
      = { (⟨"t", [], ["https://img.example/1.png"]⟩ : SearchResult) with
          images := (["https://img.example/1.png"]
            ++ specAugmentChain
                ⟨none, some "tav", none, some "uk", some "pk", none⟩
                (.error "quota")
                (.ok ["https://u.example/a", "https://u.example/b"])).take 10 } :=
  performSearch_augmentation
    ⟨none, some "tav", none, some "uk", some "pk", none⟩
    (.ok ⟨"t", [], ["https://img.example/1.png"]⟩) (.error "unused")
    (.error "quota") (.ok ["https://u.example/a", "https://u.example/b"])
    ⟨"t", [], ["https://img.example/1.png"]⟩
    (Or.inl ⟨by decide, rfl⟩) (by decide)

/-- `split` never returns an empty list of segments. -/
theorem splitNl_ne_nil (l : List Char) : splitNl l ≠ [] := by
  induction l with
  | nil => simp [splitNl]
  | cons c rest ih =>
    by_cases h : c = '\n'
    · simp [splitNl, h]
    · rcases hE : splitNl rest with _ | ⟨hd, tl⟩
      · exact absurd hE ih
      · simp [splitNl, h, hE]

/-- A newline-free string is one single segment. -/
theorem splitNl_no_newline (l : List Char) (h : '\n' ∉ l) :
    splitNl l = [l] := by
  induction l with
  | nil => simp [splitNl]
  | cons c rest ih =>
    have hc : c ≠ '\n' := fun hc => h (hc ▸ List.mem_cons_self c rest)
    have hr : '\n' ∉ rest := fun hr => h (List.mem_cons_of_mem c hr)
    simp [splitNl, hc, ih hr]

/-- Splitting around the first newline of a newline-free prefix. -/
theorem splitNl_newline_split (a b : List Char) (h : '\n' ∉ a) :
    splitNl (a ++ '\n' :: b) = a :: splitNl b := by
  induction a with
  | nil => simp [splitNl]
  | cons c a' ih =>
    have hc : c ≠ '\n' := fun hc => h (hc ▸ List.mem_cons_self c a')
    have ha : '\n' ∉ a' := fun hr => h (List.mem_cons_of_mem c hr)
    simp [splitNl, hc, ih ha]

/-- The trailing segment of a split never contains a newline. -/
theorem splitNl_getLastD_no_newline (l : List Char) :
    '\n' ∉ (splitNl l).getLastD [] := by
  induction l with
  | nil => simp [splitNl]
  | cons c rest ih =>
    by_cases h : c = '\n'
    · rcases hE : splitNl rest with _ | ⟨hd, tl⟩
      · exact absurd hE (splitNl_ne_nil rest)
      · rw [hE] at ih
        simpa [splitNl, h, hE, List.getLastD_cons] using ih
    · rcases hE : splitNl rest with _ | ⟨hd, tl⟩
      · exact absurd hE (splitNl_ne_nil rest)
      · rw [hE] at ih
        rcases tl with _ | ⟨x, xs⟩
        · simp only [List.getLastD_cons, List.getLastD_nil] at ih
          simp only [splitNl, if_neg h, hE, List.getLastD_cons,
            List.getLastD_nil, List.mem_cons, not_or]
          exact ⟨fun he => h he.symm, ih⟩
        · simp only [List.getLastD_cons] at ih
          simp only [splitNl, if_neg h, hE, List.getLastD_cons]
          exact ih

/-- A halted parser state absorbs every further character. -/
theorem feed_halted (parse : JsonParse) (t : List Char)
    (buf : List Char) (ys : List String) :
    t.foldl (feed parse) (buf, ys, true) = (buf, ys, true) := by
  induction t with
  | nil => rfl
  | cons c t ih => simpa [feed] using ih

/-- Already-accumulated yields are carried through unchanged: folding
from `(buf, ys, false)` equals folding from `(buf, [], false)` with `ys`
prepended to the yields. -/
theorem feed_shift (parse : JsonParse) (t : List Char) :
    ∀ (buf : List Char) (ys : List String),
      t.foldl (feed parse) (buf, ys, false)
        = ((t.foldl (feed parse) (buf, [], false)).1,
            ys ++ (t.foldl (feed parse) (buf, [], false)).2.1,
            (t.foldl (feed parse) (buf, [], false)).2.2) := by
  induction t with
  | nil => intro buf ys; simp
  | cons c t ih =>
    intro buf ys
    by_cases hc : c = '\n'
    · subst hc
      cases hL : lineAction parse buf with
      | halt => simp [feed, hL, feed_halted]
      | yieldChunk d =>
        have h1 := ih [] (ys ++ [d])
        have h2 := ih [] [d]
        simp only [List.foldl_cons, feed, hL, if_true, List.nil_append]
        rw [h1, h2]
        simp
      | skip =>
        have h1 := ih [] ys
        simp only [List.foldl_cons, feed, hL, if_true]
        exact h1
    · have h1 := ih (buf ++ [c]) ys
      simp [feed, hc, h1]

/-- Folding a newline-free suffix only extends the pending buffer. -/
theorem feed_no_newline (parse : JsonParse) (s : List Char) :
    ∀ (buf : List Char) (ys : List String), '\n' ∉ s →
      s.foldl (feed parse) (buf, ys, false) = (buf ++ s, ys, false) := by
  induction s with
  | nil => intro buf ys _; simp
  | cons c s ih =>
    intro buf ys h
    have hc : c ≠ '\n' := fun hc => h (hc ▸ List.mem_cons_self c s)
    have hs : '\n' ∉ s := fun hm => h (List.mem_cons_of_mem c hm)
    simp [feed, hc, ih (buf ++ [c]) ys hs]

/-- Character-level folding agrees with the split-and-process-lines step
of the source: same yields, same halt flag, and (when not halted) the
pending buffer is exactly the trailing segment of the split. -/
theorem split_run (parse : JsonParse) (s : List Char) :
    ∀ buf : List Char, '\n' ∉ buf →
      (s.foldl (feed parse) (buf, [], false)).2.1
          = (processLines parse (splitNl (buf ++ s)).dropLast).1
      ∧ (s.foldl (feed parse) (buf, [], false)).2.2
          = (processLines parse (splitNl (buf ++ s)).dropLast).2
      ∧ ((s.foldl (feed parse) (buf, [], false)).2.2 = false →
          (s.foldl (feed parse) (buf, [], false)).1
            = (splitNl (buf ++ s)).getLastD []) := by
  induction s with
  | nil =>
    intro buf h
    simp [splitNl_no_newline buf h, processLines]
  | cons c s ih =>
    intro buf h
    by_cases hc : c = '\n'
    · subst hc
      have hsplit : splitNl (buf ++ '\n' :: s) = buf :: splitNl s :=
        splitNl_newline_split buf s h
      have hdrop : (buf :: splitNl s).dropLast
          = buf :: (splitNl s).dropLast :=
        List.dropLast_cons_of_ne_nil (splitNl_ne_nil s)
      cases hL : lineAction parse buf with
      | halt =>
        simp [feed, hL, feed_halted, hsplit, hdrop, processLines]
      | yieldChunk d =>
        have hshift := feed_shift parse s [] [d]
        have hih := ih [] (by simp)
        simp only [List.nil_append] at hih
        obtain ⟨i1, i2, i3⟩ := hih
        refine ⟨?_, ?_, ?_⟩
        · simp only [List.foldl_cons, feed, hL, if_true, List.nil_append,
            hshift, hsplit, hdrop, processLines, i1, List.singleton_append,
            List.cons_append]
        · simp only [List.foldl_cons, feed, hL, if_true, List.nil_append,
            hshift, hsplit, hdrop, processLines, i2]
        · intro hdone
          simp only [List.foldl_cons, feed, hL, if_true, List.nil_append,
            hshift] at hdone ⊢
          have := i3 hdone
          rw [this, hsplit]
          rcases hE : splitNl s with _ | ⟨x, xs⟩
          · exact absurd hE (splitNl_ne_nil s)
          · simp [List.getLastD_cons]
      | skip =>
        have hih := ih [] (by simp)
        simp only [List.nil_append] at hih
        obtain ⟨i1, i2, i3⟩ := hih
        refine ⟨?_, ?_, ?_⟩
        · simp only [List.foldl_cons, feed, hL, if_true, hsplit, hdrop,
            processLines, i1]
        · simp only [List.foldl_cons, feed, hL, if_true, hsplit, hdrop,
            processLines, i2]
        · intro hdone
          simp only [List.foldl_cons, feed, hL, if_true] at hdone ⊢
          have := i3 hdone
          rw [this, hsplit]
          rcases hE : splitNl s with _ | ⟨x, xs⟩
          · exact absurd hE (splitNl_ne_nil s)
          · simp [List.getLastD_cons]
    · have h' : '\n' ∉ buf ++ [c] := by
        intro hm
        rcases List.mem_append.mp hm with hm | hm
        · exact h hm
        · simp only [List.mem_singleton] at hm
          exact hc hm.symm
      have hih := ih (buf ++ [c]) h'
      rw [List.append_assoc, List.singleton_append] at hih
      refine ⟨?_, ?_, ?_⟩
      · simpa only [List.foldl_cons, feed, hc, if_neg] using hih.1
      · simpa only [List.foldl_cons, feed, hc, if_neg] using hih.2.1
      · intro hdone
        simp only [List.foldl_cons, feed, hc, if_neg] at hdone ⊢
        exact hih.2.2 hdone

/-- The chunked read loop computes exactly the yields of the
character-level reference on the concatenated stream. -/
theorem runStream_eq_ref (parse : JsonParse) (chunks : List (List Char)) :
    ∀ buf : List Char, '\n' ∉ buf →
      runStream parse buf chunks
        = ((buf ++ chunks.join).foldl (feed parse) ([], [], false)).2.1 := by
  induction chunks with
  | nil =>
    intro buf h
    have h0 := feed_no_newline parse buf [] [] h
    simp [runStream, h0]
  | cons c rest ih =>
    intro buf h
    have hX : (buf ++ c).foldl (feed parse) ([], [], false)
        = c.foldl (feed parse) (buf, [], false) := by
      rw [List.foldl_append]
      congr 1
      simpa using feed_no_newline parse buf [] [] h
    obtain ⟨i1, i2, i3⟩ := split_run parse c buf h
    have hjoin : buf ++ (c :: rest).join = (buf ++ c) ++ rest.join := by
      simp [List.join_cons, List.append_assoc]
    rw [hjoin, List.foldl_append, hX]
    set X := c.foldl (feed parse) (buf, [], false) with hXdef
    cases hd : X.2.2 with
    | true =>
      have hXeta : X = (X.1, X.2.1, true) := by
        rw [← hd]
      rw [hXeta, feed_halted]
      simp only [runStream, processChunk]
      rw [if_pos (by rw [← i2, hd])]
      exact i1.symm
    | false =>
      have hXeta : X = (X.1, X.2.1, false) := by
        rw [← hd]
      have hnb : X.1 = (splitNl (buf ++ c)).getLastD [] := i3 hd
      have hnonl : '\n' ∉ X.1 := by
        rw [hnb]
        exact splitNl_getLastD_no_newline (buf ++ c)
      have hrec := ih X.1 hnonl
      have hfold : (X.1 ++ rest.join).foldl (feed parse) ([], [], false)
          = rest.join.foldl (feed parse) (X.1, [], false) := by
        rw [List.foldl_append]
        congr 1
        simpa using feed_no_newline parse X.1 [] [] hnonl
      rw [hfold] at hrec
      have hshift := feed_shift parse rest.join X.1 X.2.1
      rw [hXeta, hshift]
      simp only [runStream, processChunk]
      rw [if_neg (by rw [← i2, hd]; exact fun hc => nomatch hc)]
      rw [← hnb, hrec, ← i1]

/-- Splitting a string with a trailing newline appends an empty trailing
segment. -/
theorem splitNl_concat_newline (a : List Char) :
    splitNl (a ++ ['\n']) = splitNl a ++ [[]] := by
  induction a with
  | nil => simp [splitNl]
  | cons c a' ih =>
    by_cases hc : c = '\n'
    · simp [splitNl, hc, ih]
    · rcases hE : splitNl a' with _ | ⟨hd, tl⟩
      · exact absurd hE (splitNl_ne_nil a')
      · rw [hE] at ih
        simp [splitNl, hc, ih, hE]

/-- After a stream prefix that is empty or ends in a newline, the pending
buffer of the reference parser is empty (unless it has halted). -/
theorem trailing_newline_buffer (parse : JsonParse) (s : List Char)
    (hs : s = [] ∨ ∃ s0, s = s0 ++ ['\n'])
    (hd : (s.foldl (feed parse) ([], [], false)).2.2 = false) :
    (s.foldl (feed parse) ([], [], false)).1 = [] := by
  obtain ⟨_, _, i3⟩ := split_run parse s [] (by simp)
  rcases hs with rfl | ⟨s0, rfl⟩
  · simp only [List.foldl_nil] at hd ⊢
  · have h1 := i3 hd
    rw [List.nil_append, splitNl_concat_newline] at h1
    simpa [List.getLastD_concat] using h1

/-- Reading the literal terminator line from an empty buffer halts the
generator, whatever the parse oracle. -/
theorem done_line_halts (parse : JsonParse) (ys : List String) :
    List.foldl (feed parse) ([], ys, false) "data: [DONE]\n".toList
      = ([], ys, true) := rfl

/-- C9: the streaming gateway yields the same fragment sequence for every
way of splitting the byte stream into read chunks (incomplete trailing
lines are carried over to the next read, and the residual unterminated
buffer at end of stream is discarded identically); and once the literal
`data: [DONE]` terminator line has been read, whatever bytes follow it do
not change the yielded fragments (unparsable payload lines contribute
nothing — `processLines` skips them — rather than raising). -/
theorem stream_gateway_invariance (parse : JsonParse)
    (chunks1 chunks2 : List (List Char)) (s t : List Char)
    (hjoin : chunks1.join = chunks2.join)
    (hs : s = [] ∨ ∃ s0, s = s0 ++ ['\n']) :
    runStream parse [] chunks1 = runStream parse [] chunks2
    ∧ runStream parse [] [s ++ "data: [DONE]\n".toList ++ t]
        = runStream parse [] [s ++ "data: [DONE]\n".toList] := by
  constructor
  · rw [runStream_eq_ref parse chunks1 [] (by simp),
      runStream_eq_ref parse chunks2 [] (by simp), hjoin]
  · rw [runStream_eq_ref parse _ [] (by simp),
      runStream_eq_ref parse _ [] (by simp)]
    simp only [List.flatten_cons, List.flatten_nil, List.append_nil,
      List.nil_append, List.append_assoc]
    rw [List.foldl_append, List.foldl_append, List.foldl_append]
    set X := s.foldl (feed parse) ([], [], false) with hX
    cases hd : X.2.2 with
    | true =>
      have hXeta : X = (X.1, X.2.1, true) := by rw [← hd]
      rw [hXeta, feed_halted, feed_halted]
    | false =>
      have hXeta : X = (X.1, X.2.1, false) := by rw [← hd]
      have hbuf : X.1 = [] := trailing_newline_buffer parse s hs hd
      rw [hXeta, hbuf, done_line_halts, feed_halted]

/-- C9 witness: two chunkings of the same stream yield identically, and
bytes after the terminator line are ignored. -/
theorem stream_gateway_invariance_witness :
    runStream failParse [] ["ab\n".toList, "c".toList]
        = runStream failParse [] ["a".toList, "b\nc".toList]
    ∧ runStream failParse []
          [([] : List Char) ++ "data: [DONE]\n".toList ++ "zz".toList]
        = runStream failParse []
            [([] : List Char) ++ "data: [DONE]\n".toList] :=
  stream_gateway_invariance failParse ["ab\n".toList, "c".toList]
    ["a".toList, "b\nc".toList] [] "zz".toList rfl (Or.inl rfl)

/-- C6 counterexample: in browser mode (no backend) with no credentials,
the cooperative trace of `start` is
info, log, RESOLVE, error — the promise resolves at index 2 while the
only terminal event (the `error`) is emitted at index 3, after the
resolution: `start` does not resolve "only after a terminal event". -/
theorem start_resolution_counterexample :
    ¬ resolveOnlyAfterTerminal (startActions emptyCfg "T" false false
        (.error "x") (.error "g") failParse failingOracle [] none) := by
  unfold resolveOnlyAfterTerminal
  decide

/-- A three-action trace emit-emit-resolve with a terminal second
emission resolves only after a terminal event. -/
theorem resolveOnlyAfterTerminal_three (e1 e2 : AgentEvent)
    (h2 : isTerminal e2 = true) :
    resolveOnlyAfterTerminal [.emitEv e1, .emitEv e2, .resolveStart] := by
  intro i hi
  fin_cases i
  · simp at hi
  · simp at hi
  · exact ⟨⟨1, by simp⟩, by simp, by simpa [isTerminalEmit] using h2⟩

/-- C6 amended: `start` is total over its oracles (all external failures
become events, none escape as a rejection), and its resolution timing
depends on the path.  In the delegated path the backend `complete` event
precedes the resolution, and in the backend-failure fallback the remote
`error` event precedes it; but in browser mode `runFrontendAgents` is
invoked without `await` (agentSystem.ts line 194), so `start` resolves
strictly before the terminal event of the run: no terminal event precedes
the resolution point and one follows it. -/
theorem start_resolution_timing (cfg : Config) (topic : String)
    (isDeep : Bool) (backendOutcome : Except String ResearchResult)
    (gen : Except String String) (parse : JsonParse)
    (oracle : SearchOracle) (chunks : List String) (serr : Option String) :
    (∀ r, backendOutcome = .ok r →
      resolveOnlyAfterTerminal (startActions cfg topic isDeep true
        backendOutcome gen parse oracle chunks serr))
    ∧ (∀ m, backendOutcome = .error m →
      terminalBeforeResolve (startActions cfg topic isDeep true
        backendOutcome gen parse oracle chunks serr))
    ∧ resolvesBeforeTerminal (startActions cfg topic isDeep false
        backendOutcome gen parse oracle chunks serr) := by
  refine And.intro ?_ (And.intro ?_ ?_)
  · intro r hro
    subst hro
    have htr : startActions cfg topic isDeep true (.ok r) gen parse oracle
        chunks serr
        = [.emitEv (.info "Connected to Neural Backend (Python/LangGraph)"),
          .emitEv (.complete "Research Completed by Backend" r.report
            r.sources r.images),
          .resolveStart] := by
      simp [startActions]
    rw [htr]
    exact resolveOnlyAfterTerminal_three _ _ rfl
  · intro m hro
    subst hro
    refine ⟨[.emitEv (.info "Connected to Neural Backend (Python/LangGraph)"),
        .emitEv (.error ("Backend Error: " ++ m)),
        .emitEv (.info "Falling back to local agents...")]
      ++ (((runFrontendAgents cfg topic isDeep gen parse oracle chunks
          serr).1.take (syncPrefixLen cfg)).map .emitEv),
      (((runFrontendAgents cfg topic isDeep gen parse oracle chunks
          serr).1.drop (syncPrefixLen cfg)).map .emitEv), ?_,
      .emitEv (.error ("Backend Error: " ++ m)), by simp, rfl⟩
    simp [startActions]
  · cases heq : getLLMProvider cfg with
    | error m =>
      have hevs : (runFrontendAgents cfg topic isDeep gen parse oracle
          chunks serr).1
          = [.log "Chief Editor: Initializing Workflow", .error m] := by
        simp [runFrontendAgents, editorExecute, heq]
      refine ⟨[.emitEv (.info "Running in Browser Mode (TypeScript Agents)"),
          .emitEv (.log "Chief Editor: Initializing Workflow")],
        [.emitEv (.error m)], ?_, ?_, .emitEv (.error m), by simp, rfl⟩
      · simp [startActions, hevs, syncPrefixLen, heq]
      · intro a ha
        fin_cases ha <;> rfl
    | ok p =>
      have hk : anyLLMKey cfg = true := by
        cases hg : hasKey cfg.groqApiKey <;>
          cases hgo : hasKey cfg.googleApiKey <;>
            cases hhf : hasKey cfg.huggingFaceApiKey <;>
              simp_all [getLLMProvider, anyLLMKey]
      obtain ⟨_, q, hq⟩ := anyLLMKey_getProviders cfg hk
      obtain ⟨qs, x, hE⟩ :=
        editorExecute_ok cfg (initialState topic isDeep) gen parse p heq
      rcases hR : researcherExecute
          { initialState topic isDeep with plan := qs } oracle
        with ⟨st2, e2⟩
      have hW := writerExecute_ok cfg st2 chunks serr q hq
      have hevs : (runFrontendAgents cfg topic isDeep gen parse oracle
          chunks serr).1
          = .log "Chief Editor: Initializing Workflow"
            :: .agentAction "Editor"
                "Analyzing request and outlining research strategy..."
            :: (x :: (e2 ++ (reviewerExecute st2).2
              ++ (AgentEvent.agentAction "Writer" "Drafting final report..."
                  :: chunks.map .reportChunk)
              ++ (publisherExecute { st2 with report :=
                  match serr with
                  | none => String.join chunks
                  | some m => "Drafting failed. " ++ m }).2)) := by
        cases serr <;>
          simp [runFrontendAgents, hE, hR, hW, reviewerExecute,
            publisherExecute]
      refine ⟨[.emitEv (.info "Running in Browser Mode (TypeScript Agents)"),
          .emitEv (.log "Chief Editor: Initializing Workflow"),
          .emitEv (.agentAction "Editor"
            "Analyzing request and outlining research strategy...")],
        ((x :: (e2 ++ (reviewerExecute st2).2
          ++ (AgentEvent.agentAction "Writer" "Drafting final report..."
              :: chunks.map .reportChunk)
          ++ (publisherExecute { st2 with report :=
              match serr with
              | none => String.join chunks
              | some m => "Drafting failed. " ++ m }).2)).map .emitEv),
        ?_, ?_, ?_⟩
      · cases serr <;> simp [startActions, hevs, syncPrefixLen, heq]
      · intro a ha
        fin_cases ha <;> rfl
      · refine ⟨.emitEv (.complete "Research Published"
          (match serr with
            | none => String.join chunks
            | some m => "Drafting failed. " ++ m)
          st2.sources (some st2.images)), ?_, ?_⟩
        · cases serr <;> simp [publisherExecute]
        · cases serr <;> rfl

/-- C6 witness: the amended timing at a Google-only configuration — the
delegated path resolves only after its terminal event, the browser path
resolves strictly before its terminal event. -/
theorem start_resolution_timing_witness :
    resolveOnlyAfterTerminal (startActions googleOnlyCfg "T" false true
        (.ok ⟨"rep", [], none⟩) (.error "g") failParse failingOracle []
        none)
    ∧ resolvesBeforeTerminal (startActions googleOnlyCfg "T" false false
        (.ok ⟨"rep", [], none⟩) (.error "g") failParse failingOracle []
        none) :=
  ⟨(start_resolution_timing googleOnlyCfg "T" false (.ok ⟨"rep", [], none⟩)
      (.error "g") failParse failingOracle [] none).1 ⟨"rep", [], none⟩
      rfl,
    (start_resolution_timing googleOnlyCfg "T" false
      (.ok ⟨"rep", [], none⟩) (.error "g") failParse failingOracle []
      none).2.2⟩
